import Mathlib

/-!
Verification development for the signal-analysis core of the
`ind320-assignment3` repository (Streamlit app).

The embedded code comes from:
* `streamlit_app/pages/.ipynb_checkpoints/6_Outliers_and_LOF-checkpoint.py`
  (SATV high-pass filter via DCT, robust SPC bounds, LOF pipeline), and
* `streamlit_app/pages/3_STL_and_Spectrogram.py`
  (STL decomposition and spectrogram parameters).

Scalar values are modelled exactly: rationals (`ℚ`) where the computation is
rational, reals (`ℝ`) where the code uses cosine transforms.  Machine floats
are modelled as exact arithmetic; tolerance claims (`< 1e-6`) are settled in
exact arithmetic.  Library routines that are not part of the repository
(statsmodels STL, sklearn LOF internals, scipy spectrogram internals) are
modelled from the specification and marked `Modelled from the spec:`.
-/

/-! ## Error taxonomy (spec §7) -/

/-- Error kinds from the spec's error taxonomy: `InvalidSeriesError`,
`InvalidParameterError`, `InsufficientDataError`. -/
inductive AnalysisError : Type where
  | invalidSeriesError : AnalysisError
  | invalidParameterError : AnalysisError
  | insufficientDataError : AnalysisError
deriving DecidableEq, Repr

/-! ## Median and robust SPC bounds

Translated from `6_Outliers_and_LOF-checkpoint.py` lines 63–67:
```
med = np.median(satv)
mad = np.median(np.abs(satv - med)) or 1e-9
sigma = 1.4826 * mad
lo, hi = med - k_sigma * sigma, med + k_sigma * sigma
out = (satv < lo) | (satv > hi)
```
`np.median` sorts the data and returns the middle element (odd length) or the
mean of the two middle elements (even length). -/

/-- `np.median`: sort ascending; middle element for odd length, average of the
two middle elements for even length.  (For the empty list this returns `0`;
the pipelines only call it on nonempty series.) -/
def median {α : Type} [LinearOrderedField α] (xs : List α) : α :=
  let ys := xs.insertionSort (· ≤ ·)
  let n := ys.length
  if n % 2 = 1 then ys.getD (n / 2) 0
  else (ys.getD (n / 2 - 1) 0 + ys.getD (n / 2) 0) / 2

/-- The result of the SPC computation: center, spread, bounds and per-sample
anomaly flags, mirroring lines 63–67 of the SPC tab. -/
structure SpcResult (α : Type) where
  center : α
  sigma : α
  lower : α
  upper : α
  flags : List Bool
deriving Repr

/-- `mad = np.median(np.abs(satv - med))` (line 64, before the zero floor). -/
def madOf {α : Type} [LinearOrderedField α] (xs : List α) : α :=
  median (xs.map (fun x => |x - median xs|))

/-- The `or 1e-9` zero floor of line 64: Python `or` substitutes `1e-9`
exactly when the MAD is `0.0`. -/
def madFloored {α : Type} [LinearOrderedField α] (xs : List α) : α :=
  if madOf xs = 0 then 1 / 1000000000 else madOf xs

/-- `sigma = 1.4826 * mad` (line 65). -/
def sigmaOf {α : Type} [LinearOrderedField α] (xs : List α) : α :=
  (14826 / 10000 : α) * madFloored xs

/-- `lo = med - k_sigma * sigma` (line 66). -/
def lowerOf {α : Type} [LinearOrderedField α] (xs : List α) (kSigma : α) : α :=
  median xs - kSigma * sigmaOf xs

/-- `hi = med + k_sigma * sigma` (line 66). -/
def upperOf {α : Type} [LinearOrderedField α] (xs : List α) (kSigma : α) : α :=
  median xs + kSigma * sigmaOf xs

/-- Robust SPC bounds, translated line by line from the source:
median center, MAD spread with the `or 1e-9` zero floor, `sigma = 1.4826*mad`,
symmetric bounds `med ± k*sigma`, and strict-inequality flags
`out = (satv < lo) | (satv > hi)` (line 67). -/
def spcBounds {α : Type} [LinearOrderedField α] (xs : List α) (kSigma : α) :
    SpcResult α :=
  { center := median xs
    sigma := sigmaOf xs
    lower := lowerOf xs kSigma
    upper := upperOf xs kSigma
    flags := xs.map (fun x =>
      decide (x < lowerOf xs kSigma) || decide (upperOf xs kSigma < x)) }

/-- Number of samples flagged anomalous by the SPC bounds test. -/
def flaggedCount (xs : List ℚ) (kSigma : ℚ) : ℕ :=
  ((spcBounds xs kSigma).flags).count true

/-! ### Helper lemmas for the SPC claims -/

theorem getD_nonneg_of_forall {α : Type} [LinearOrderedField α]
    {l : List α} (h : ∀ x ∈ l, 0 ≤ x) (i : ℕ) : 0 ≤ l.getD i 0 := by
  rcases Nat.lt_or_ge i l.length with hi | hi
  · rw [List.getD_eq_getElem?_getD, List.getElem?_eq_getElem hi]
    exact h _ (l.getElem_mem hi)
  · rw [List.getD_eq_getElem?_getD, List.getElem?_eq_none hi]
    simp

theorem median_nonneg {α : Type} [LinearOrderedField α]
    {xs : List α} (h : ∀ x ∈ xs, 0 ≤ x) : 0 ≤ median xs := by
  have hmem : ∀ x ∈ xs.insertionSort (· ≤ ·), 0 ≤ x := by
    intro x hx
    exact h x ((List.perm_insertionSort (· ≤ ·) xs).mem_iff.mp hx)
  unfold median
  dsimp only
  split
  · exact getD_nonneg_of_forall hmem _
  · have h1 := getD_nonneg_of_forall hmem (((xs.insertionSort (· ≤ ·)).length) / 2 - 1)
    have h2 := getD_nonneg_of_forall hmem (((xs.insertionSort (· ≤ ·)).length) / 2)
    positivity

theorem madOf_nonneg {α : Type} [LinearOrderedField α] (xs : List α) :
    0 ≤ madOf xs := by
  refine median_nonneg ?_
  intro x hx
  rcases List.mem_map.mp hx with ⟨y, _, rfl⟩
  exact abs_nonneg _

theorem sigmaOf_pos (xs : List ℚ) : 0 < sigmaOf xs := by
  unfold sigmaOf madFloored
  rcases eq_or_lt_of_le (madOf_nonneg xs) with hz | hp
  · rw [if_pos hz.symm]
    norm_num
  · rw [if_neg (ne_of_gt hp)]
    positivity

theorem spcBounds_center {α : Type} [LinearOrderedField α] (xs : List α) (k : α) :
    (spcBounds xs k).center = median xs := rfl

theorem spcBounds_sigma {α : Type} [LinearOrderedField α] (xs : List α) (k : α) :
    (spcBounds xs k).sigma = sigmaOf xs := rfl

theorem spcBounds_lower {α : Type} [LinearOrderedField α] (xs : List α) (k : α) :
    (spcBounds xs k).lower = lowerOf xs k := rfl

theorem spcBounds_upper {α : Type} [LinearOrderedField α] (xs : List α) (k : α) :
    (spcBounds xs k).upper = upperOf xs k := rfl

theorem flaggedCount_eq_countP (xs : List ℚ) (k : ℚ) :
    flaggedCount xs k =
      xs.countP (fun x => decide (x < lowerOf xs k) || decide (upperOf xs k < x)) := by
  unfold flaggedCount spcBounds
  dsimp only
  rw [List.count_eq_countP, List.countP_map]
  apply List.countP_congr
  intro x _
  simp [Function.comp]

/-! ## Claim C2: SPC bounds computation -/

/-- C2: for every residual series and every multiplier `k ≥ 0`, the SPC bounds
computation returns center `m = median xs`, spread `sigma = 1.4826 * mad` with
`mad = median |x_i - m|` floored to `1e-9` exactly when it is zero, bounds
`[m - k*sigma, m + k*sigma]`, and a sample is flagged anomalous iff its value
lies strictly outside `[lower, upper]` (values equal to a bound are not
flagged). -/
theorem spc_bounds_contract (xs : List ℚ) (k : ℚ) (hk : 0 ≤ k) :
    (spcBounds xs k).center = median xs ∧
    (spcBounds xs k).sigma =
      (14826 / 10000 : ℚ) *
        (if median (xs.map (fun x => |x - median xs|)) = 0 then 1 / 1000000000
         else median (xs.map (fun x => |x - median xs|))) ∧
    (spcBounds xs k).lower = median xs - k * (spcBounds xs k).sigma ∧
    (spcBounds xs k).upper = median xs + k * (spcBounds xs k).sigma ∧
    (spcBounds xs k).flags.length = xs.length ∧
    (∀ i, i < xs.length →
      ((spcBounds xs k).flags.getD i false = true ↔
        (xs.getD i 0 < (spcBounds xs k).lower ∨
         (spcBounds xs k).upper < xs.getD i 0))) := by
  refine ⟨rfl, rfl, rfl, rfl, List.length_map _ _, ?_⟩
  intro i hi
  have hmap : i < (List.map (fun x =>
      decide (x < lowerOf xs k) || decide (upperOf xs k < x)) xs).length := by
    rw [List.length_map]; exact hi
  show (List.map _ xs).getD i false = true ↔ _
  rw [List.getD_eq_getElem?_getD, List.getElem?_eq_getElem hmap,
    List.getElem_map, List.getD_eq_getElem?_getD, List.getElem?_eq_getElem hi,
    spcBounds_lower, spcBounds_upper]
  simp

/-- Concrete instantiation of `spc_bounds_contract` at `xs = [1,2,100]`,
`k = 2`. -/
theorem spc_bounds_contract_witness :
    (0 : ℚ) ≤ 2 ∧
    ((spcBounds [1, 2, 100] (2 : ℚ)).center = median [1, 2, 100] ∧
     (spcBounds [1, 2, 100] (2 : ℚ)).sigma =
       (14826 / 10000 : ℚ) *
         (if median (List.map (fun x => |x - median ([1, 2, 100] : List ℚ)|)
              ([1, 2, 100] : List ℚ)) = 0
          then 1 / 1000000000
          else median (List.map (fun x => |x - median ([1, 2, 100] : List ℚ)|)
              ([1, 2, 100] : List ℚ))) ∧
     (spcBounds [1, 2, 100] (2 : ℚ)).lower =
       median [1, 2, 100] - 2 * (spcBounds [1, 2, 100] (2 : ℚ)).sigma ∧
     (spcBounds [1, 2, 100] (2 : ℚ)).upper =
       median [1, 2, 100] + 2 * (spcBounds [1, 2, 100] (2 : ℚ)).sigma ∧
     (spcBounds [1, 2, 100] (2 : ℚ)).flags.length = ([1, 2, 100] : List ℚ).length ∧
     (∀ i, i < ([1, 2, 100] : List ℚ).length →
       ((spcBounds [1, 2, 100] (2 : ℚ)).flags.getD i false = true ↔
         (([1, 2, 100] : List ℚ).getD i 0 < (spcBounds [1, 2, 100] (2 : ℚ)).lower ∨
          (spcBounds [1, 2, 100] (2 : ℚ)).upper < ([1, 2, 100] : List ℚ).getD i 0)))) :=
  ⟨by decide, spc_bounds_contract [1, 2, 100] 2 (by decide)⟩

/-! ## Claim C6: SPC flagged-count monotonicity in `kSigma` -/

/-- C6 counterexample: the claim "for all `k1 ≤ k2`,
`flaggedCount xs k1 ≤ flaggedCount xs k2`" fails at `xs = [0,0,0,0,1]`,
`k1 = 0`, `k2 = 2·10^9`: the flagged count drops from 1 to 0 as `kSigma`
increases. -/
theorem spc_monotonicity_counterexample :
    (0 : ℚ) ≤ 0 ∧ (0 : ℚ) ≤ 2000000000 ∧
    ¬ (flaggedCount [0, 0, 0, 0, 1] 0 ≤ flaggedCount [0, 0, 0, 0, 1] 2000000000) := by
  refine ⟨le_refl _, by decide, ?_⟩
  have h1 : flaggedCount [0, 0, 0, 0, 1] 0 = 1 := by
    norm_num [flaggedCount, spcBounds, lowerOf, upperOf, sigmaOf, madFloored,
      madOf, median, List.insertionSort, List.orderedInsert, List.count_cons]
  have h2 : flaggedCount [0, 0, 0, 0, 1] 2000000000 = 0 := by
    norm_num [flaggedCount, spcBounds, lowerOf, upperOf, sigmaOf, madFloored,
      madOf, median, List.insertionSort, List.orderedInsert, List.count_cons]
  omega

/-- C6 amended: for a fixed residual series the flagged count never
*increases* as `kSigma` increases: for all `0 ≤ k1 ≤ k2`,
`flaggedCount xs k2 ≤ flaggedCount xs k1`. -/
theorem spc_flagged_count_antitone (xs : List ℚ) (k1 k2 : ℚ)
    (h0 : 0 ≤ k1) (h12 : k1 ≤ k2) :
    flaggedCount xs k2 ≤ flaggedCount xs k1 := by
  rw [flaggedCount_eq_countP, flaggedCount_eq_countP]
  apply List.countP_mono_left
  intro x _ hflag
  have hs := sigmaOf_pos xs
  have hks : k1 * sigmaOf xs ≤ k2 * sigmaOf xs :=
    mul_le_mul_of_nonneg_right h12 hs.le
  simp only [Bool.or_eq_true, decide_eq_true_eq] at hflag ⊢
  rcases hflag with h | h
  · left
    have : lowerOf xs k2 ≤ lowerOf xs k1 := by
      unfold lowerOf; linarith
    exact lt_of_lt_of_le h this
  · right
    have : upperOf xs k1 ≤ upperOf xs k2 := by
      unfold upperOf; linarith
    exact lt_of_le_of_lt this h

/-- Concrete instantiation of `spc_flagged_count_antitone` at `xs = [0,1]`,
`k1 = 1`, `k2 = 2`. -/
theorem spc_flagged_count_antitone_witness :
    (0 : ℚ) ≤ 1 ∧ (1 : ℚ) ≤ 2 ∧
    flaggedCount [0, 1] 2 ≤ flaggedCount [0, 1] 1 :=
  ⟨by decide, by decide,
    spc_flagged_count_antitone [0, 1] 1 2 (by decide) (by decide)⟩

/-! ## SATV filter: DCT high-pass

Translated from `6_Outliers_and_LOF-checkpoint.py` lines 58–62:
```
x = dct(s, norm="ortho")
cutoff = int(len(x) * dct_keep_frac)
x[:max(1, cutoff)] = 0.0
satv = idct(x, norm="ortho")
```
`scipy.fftpack.dct(·, norm="ortho")` is the orthonormal DCT-II
`X_k = f(k) * Σ_n x_n cos(π (2n+1) k / (2N))` with `f(0) = √(1/N)` and
`f(k) = √(2/N)` for `k ≥ 1`; `idct(·, norm="ortho")` is its inverse (the
transpose, DCT-III).  The slider guarantees `dct_keep_frac > 0`, so Python's
`int()` truncation agrees with the floor. -/

/-- Orthonormal DCT-II scale factor: `√(1/N)` for `k = 0`, `√(2/N)` else. -/
noncomputable def dctScale (N k : ℕ) : ℝ :=
  if k = 0 then Real.sqrt (1 / N) else Real.sqrt (2 / N)

/-- The DCT-II angle `π (2n+1) k / (2N)`. -/
noncomputable def dctAngle (N n k : ℕ) : ℝ :=
  Real.pi * (2 * n + 1) * k / (2 * N)

/-- `scipy.fftpack.dct(s, norm="ortho")` (line 59). -/
noncomputable def dct (s : List ℝ) : List ℝ :=
  (List.range s.length).map (fun k =>
    dctScale s.length k *
      ∑ n ∈ Finset.range s.length, s.getD n 0 * Real.cos (dctAngle s.length n k))

/-- `scipy.fftpack.idct(x, norm="ortho")` (line 62), the inverse transform. -/
noncomputable def idct (X : List ℝ) : List ℝ :=
  (List.range X.length).map (fun n =>
    ∑ k ∈ Finset.range X.length,
      dctScale X.length k * X.getD k 0 * Real.cos (dctAngle X.length n k))

/-- `max(1, int(len(x) * dct_keep_frac))` (lines 60–61): the number of leading
DCT coefficients set to zero. -/
def zeroedCount (N : ℕ) (frac : ℚ) : ℕ :=
  max 1 (Nat.floor ((N : ℚ) * frac))

/-- The in-place slice assignment `x[:m] = 0.0` (line 61), as the list whose
first `m` entries are `0` and whose remaining entries are those of `X`. -/
noncomputable def zeroFirst (m : ℕ) (X : List ℝ) : List ℝ :=
  (List.range X.length).map (fun i => if i < m then 0 else X.getD i 0)

/-- The SATV pipeline (lines 59–62): DCT, zero the first
`max(1, int(N*keepFraction))` coefficients, inverse DCT. -/
noncomputable def satvFilter (s : List ℝ) (frac : ℚ) : List ℝ :=
  idct (zeroFirst (zeroedCount s.length frac) (dct s))

theorem dct_length (s : List ℝ) : (dct s).length = s.length := by
  simp [dct]

theorem idct_length (X : List ℝ) : (idct X).length = X.length := by
  simp [idct]

theorem zeroFirst_length (m : ℕ) (X : List ℝ) :
    (zeroFirst m X).length = X.length := by
  simp [zeroFirst]

theorem zeroFirst_getD (m : ℕ) (X : List ℝ) (i : ℕ) :
    (zeroFirst m X).getD i 0 =
      if i < X.length then (if i < m then 0 else X.getD i 0) else 0 := by
  rcases Nat.lt_or_ge i X.length with hi | hi
  · have hr : i < (List.range X.length).length := by simpa using hi
    rw [if_pos hi]
    unfold zeroFirst
    rw [List.getD_eq_getElem?_getD,
      List.getElem?_eq_getElem (by simpa using hi), List.getElem_map]
    simp
  · rw [if_neg (Nat.not_lt.mpr hi)]
    have : X.length ≤ (zeroFirst m X).length := by rw [zeroFirst_length]
    rw [List.getD_eq_getElem?_getD,
      List.getElem?_eq_none (by rw [zeroFirst_length]; exact hi)]
    simp

/-! ## Claim C3: SATV filter structure -/

/-- C3: for every real series of length `N ≥ 2` and `keepFraction ∈ (0,1)`,
the SATV filter applies the orthonormal DCT, zeroes exactly the first
`max(1, ⌊N·keepFraction⌋)` coefficients (at least one), applies the inverse
transform, and returns a residual of the same length `N`. -/
theorem satv_filter_contract (s : List ℝ) (frac : ℚ)
    (hN : 2 ≤ s.length) (h0 : 0 < frac) (h1 : frac < 1) :
    satvFilter s frac =
      idct (zeroFirst (max 1 (Nat.floor ((s.length : ℚ) * frac))) (dct s)) ∧
    (satvFilter s frac).length = s.length ∧
    1 ≤ max 1 (Nat.floor ((s.length : ℚ) * frac)) ∧
    (∀ i, i < max 1 (Nat.floor ((s.length : ℚ) * frac)) →
      (zeroFirst (max 1 (Nat.floor ((s.length : ℚ) * frac))) (dct s)).getD i 0 = 0) ∧
    (∀ i, max 1 (Nat.floor ((s.length : ℚ) * frac)) ≤ i →
      (zeroFirst (max 1 (Nat.floor ((s.length : ℚ) * frac))) (dct s)).getD i 0 =
        (dct s).getD i 0) := by
  have hcut : max 1 (Nat.floor ((s.length : ℚ) * frac)) < s.length := by
    have hNpos : 0 < s.length := lt_of_lt_of_le (by norm_num) hN
    have hfl : Nat.floor ((s.length : ℚ) * frac) < s.length := by
      rw [Nat.floor_lt (by positivity)]
      calc (s.length : ℚ) * frac < (s.length : ℚ) * 1 := by
            exact mul_lt_mul_of_pos_left h1 (by exact_mod_cast hNpos)
        _ = s.length := mul_one _
    have h1N : 1 < s.length := lt_of_lt_of_le (by norm_num) hN
    omega
  refine ⟨rfl, ?_, le_max_left _ _, ?_, ?_⟩
  · rw [satvFilter, idct_length, zeroFirst_length, dct_length]
  · intro i him
    rw [zeroFirst_getD, dct_length, if_pos (lt_trans him hcut), if_pos him]
  · intro i him
    rcases Nat.lt_or_ge i s.length with hi | hi
    · rw [zeroFirst_getD, dct_length, if_pos hi, if_neg (Nat.not_lt.mpr him)]
    · rw [zeroFirst_getD, dct_length, if_neg (Nat.not_lt.mpr hi),
        List.getD_eq_getElem?_getD,
        List.getElem?_eq_none (by rw [dct_length]; exact hi)]
      simp

/-- Concrete instantiation of `satv_filter_contract` at `s = [1, 2]`,
`keepFraction = 1/2`. -/
theorem satv_filter_contract_witness :
    2 ≤ ([1, 2] : List ℝ).length ∧ 0 < mkRat 1 2 ∧ mkRat 1 2 < 1 ∧
    (satvFilter [1, 2] (mkRat 1 2) =
      idct (zeroFirst (max 1 (Nat.floor ((([1, 2] : List ℝ).length : ℚ) * mkRat 1 2)))
        (dct [1, 2])) ∧
     (satvFilter [1, 2] (mkRat 1 2)).length = ([1, 2] : List ℝ).length ∧
     1 ≤ max 1 (Nat.floor ((([1, 2] : List ℝ).length : ℚ) * mkRat 1 2)) ∧
     (∀ i, i < max 1 (Nat.floor ((([1, 2] : List ℝ).length : ℚ) * mkRat 1 2)) →
       (zeroFirst (max 1 (Nat.floor ((([1, 2] : List ℝ).length : ℚ) * mkRat 1 2)))
         (dct [1, 2])).getD i 0 = 0) ∧
     (∀ i, max 1 (Nat.floor ((([1, 2] : List ℝ).length : ℚ) * mkRat 1 2)) ≤ i →
       (zeroFirst (max 1 (Nat.floor ((([1, 2] : List ℝ).length : ℚ) * mkRat 1 2)))
         (dct [1, 2])).getD i 0 = (dct [1, 2]).getD i 0)) :=
  ⟨by decide, by decide, by decide,
    satv_filter_contract [1, 2] (mkRat 1 2) (by decide) (by decide) (by decide)⟩

/-! ## Claim C8: constant input gives an all-zero SATV residual -/

theorem sum_two_sin_mul_cos (θ : ℝ) (N : ℕ) :
    ∑ n ∈ Finset.range N, 2 * Real.sin θ * Real.cos ((2 * n + 1) * θ) =
      Real.sin (2 * N * θ) := by
  induction N with
  | zero => simp
  | succ n ih =>
    rw [Finset.sum_range_succ, ih]
    have h := Real.sin_sub_sin (2 * ((n : ℝ) + 1) * θ) (2 * n * θ)
    have e1 : (2 * ((n : ℝ) + 1) * θ - 2 * n * θ) / 2 = θ := by ring
    have e2 : (2 * ((n : ℝ) + 1) * θ + 2 * n * θ) / 2 = (2 * n + 1) * θ := by ring
    rw [e1, e2] at h
    push_cast
    linarith

theorem sum_cos_odd_mul_eq_zero (N k : ℕ) (hk1 : 1 ≤ k) (hkN : k < N) :
    ∑ n ∈ Finset.range N, Real.cos ((2 * n + 1) * (Real.pi * k / (2 * N))) = 0 := by
  have hNpos : (0 : ℝ) < N := by
    have : 0 < N := lt_of_le_of_lt (Nat.zero_le _) hkN
    exact_mod_cast this
  set θ : ℝ := Real.pi * k / (2 * N) with hθ
  have hθpos : 0 < θ := by
    have hkpos : (0 : ℝ) < k := by exact_mod_cast lt_of_lt_of_le one_pos hk1
    have := Real.pi_pos
    positivity
  have hθlt : θ < Real.pi := by
    rw [hθ]
    rw [div_lt_iff (by positivity)]
    have hk2N : (k : ℝ) < 2 * N := by
      have : (k : ℝ) < N := by exact_mod_cast hkN
      linarith
    calc Real.pi * k < Real.pi * (2 * N) := by
          exact mul_lt_mul_of_pos_left hk2N Real.pi_pos
      _ = Real.pi * (2 * N) := rfl
  have hsin : 0 < Real.sin θ := Real.sin_pos_of_pos_of_lt_pi hθpos hθlt
  have hsum := sum_two_sin_mul_cos θ N
  have h2N : 2 * (N : ℝ) * θ = k * Real.pi := by
    rw [hθ]
    field_simp
    ring
  rw [h2N, Real.sin_nat_mul_pi] at hsum
  have hfact : ∑ n ∈ Finset.range N, 2 * Real.sin θ * Real.cos ((2 * n + 1) * θ) =
      2 * Real.sin θ * ∑ n ∈ Finset.range N, Real.cos ((2 * n + 1) * θ) := by
    rw [Finset.mul_sum]
  rw [hfact] at hsum
  have h2s : (2 : ℝ) * Real.sin θ ≠ 0 := by positivity
  exact (mul_eq_zero.mp hsum).resolve_left h2s

theorem dct_replicate_getD_eq_zero (N : ℕ) (c : ℝ) (k : ℕ)
    (hk1 : 1 ≤ k) (hkN : k < N) :
    (dct (List.replicate N c)).getD k 0 = 0 := by
  have hlen : (List.replicate N c).length = N := List.length_replicate _ _
  have hkR : k < (List.range (List.replicate N c).length).length := by
    simpa [hlen] using hkN
  unfold dct
  rw [List.getD_eq_getElem?_getD, List.getElem?_eq_getElem (by simpa [hlen] using hkN),
    List.getElem_map, List.getElem_range, hlen]
  have hsum : (∑ n ∈ Finset.range N,
      (List.replicate N c).getD n 0 * Real.cos (dctAngle N n k)) = 0 := by
    have hcongr : ∀ n ∈ Finset.range N,
        (List.replicate N c).getD n 0 * Real.cos (dctAngle N n k) =
          c * Real.cos ((2 * n + 1) * (Real.pi * k / (2 * N))) := by
      intro n hn
      have hnN : n < N := Finset.mem_range.mp hn
      have hget : (List.replicate N c).getD n 0 = c := by
        rw [List.getD_eq_getElem?_getD, List.getElem?_eq_getElem (by simpa using hnN)]
        simp
      rw [hget]
      congr 1
      unfold dctAngle
      push_cast
      ring
    rw [Finset.sum_congr rfl hcongr, ← Finset.mul_sum,
      sum_cos_odd_mul_eq_zero N k hk1 hkN, mul_zero]
  rw [hsum, mul_zero]
  simp

theorem idct_replicate_zero (N : ℕ) :
    idct (List.replicate N (0 : ℝ)) = List.replicate N 0 := by
  unfold idct
  rw [List.length_replicate]
  apply List.ext_getElem
  · simp
  · intro i h1 h2
    rw [List.getElem_map, List.getElem_range, List.getElem_replicate]
    apply Finset.sum_eq_zero
    intro j hj
    have hjN : j < N := Finset.mem_range.mp hj
    have : (List.replicate N (0 : ℝ)).getD j 0 = 0 := by
      rw [List.getD_eq_getElem?_getD, List.getElem?_eq_getElem (by simpa using hjN)]
      simp
    rw [this, mul_zero, zero_mul]

theorem zeroFirst_dct_replicate (N : ℕ) (c : ℝ) (m : ℕ) (hm : 1 ≤ m) :
    zeroFirst m (dct (List.replicate N c)) = List.replicate N 0 := by
  unfold zeroFirst
  rw [dct_length, List.length_replicate]
  apply List.ext_getElem
  · simp
  · intro i h1 h2
    rw [List.getElem_map, List.getElem_range, List.getElem_replicate]
    have hiN : i < N := by simpa using h1
    rcases Nat.lt_or_ge i m with him | him
    · rw [if_pos him]
    · rw [if_neg (Nat.not_lt.mpr him)]
      exact dct_replicate_getD_eq_zero N c i (le_trans hm him) hiN

/-- C8: for every constant series of length `N ≥ 2` and any
`keepFraction ∈ (0,1)`, the SATV residual is identically zero. -/
theorem satv_constant_zero (N : ℕ) (c : ℝ) (frac : ℚ)
    (hN : 2 ≤ N) (h0 : 0 < frac) (h1 : frac < 1) :
    satvFilter (List.replicate N c) frac = List.replicate N 0 := by
  unfold satvFilter
  rw [zeroFirst_dct_replicate N c _ (by rw [List.length_replicate]; exact le_max_left _ _),
    idct_replicate_zero]

/-- Concrete instantiation of `satv_constant_zero` at `N = 2`, `c = 3`,
`keepFraction = 1/2`. -/
theorem satv_constant_zero_witness :
    2 ≤ 2 ∧ 0 < mkRat 1 2 ∧ mkRat 1 2 < 1 ∧
    satvFilter (List.replicate 2 (3 : ℝ)) (mkRat 1 2) = List.replicate 2 0 :=
  ⟨by decide, by decide, by decide,
    satv_constant_zero 2 3 (mkRat 1 2) (by decide) (by decide) (by decide)⟩

/-! ## LOF anomaly detector

The repository calls `sklearn.neighbors.LocalOutlierFactor` (lines 92–96):
```
z = pd.to_numeric(wx2["precipitation"], errors="coerce").fillna(0.0).to_numpy().reshape(-1, 1)
nn = min(max(5, int(n_neighbors)), max(5, len(z) - 1))
lof = LocalOutlierFactor(n_neighbors=nn, contamination=float(contamination))
labels = lof.fit_predict(z)
out2 = labels == -1
```
The neighbor clamp `nn` and `fillna(0.0)` are repository code and are embedded
directly.  The LOF scoring and selection themselves are library internals, not
repository code, and are modelled from the spec (§4.4). -/

/-- Neighbor ordering for k-nearest-neighbor queries: by distance, ties by
original index, ascending. -/
def distIdxLe (p q : ℚ × ℕ) : Prop :=
  p.1 < q.1 ∨ (p.1 = q.1 ∧ p.2 ≤ q.2)

/-- Anomaly-ranking order on (score, index) pairs: higher LOF score first,
ties broken by score then by original index, ascending (spec §4.4). -/
def rankLe (p q : ℚ × ℕ) : Prop :=
  q.1 < p.1 ∨ (p.1 = q.1 ∧ p.2 ≤ q.2)

instance : DecidableRel distIdxLe := fun p q => by
  unfold distIdxLe; infer_instance

instance : DecidableRel rankLe := fun p q => by
  unfold rankLe; infer_instance

instance : IsTotal (ℚ × ℕ) rankLe where
  total := by
    intro a b
    unfold rankLe
    rcases lt_trichotomy a.1 b.1 with h | h | h
    · right; left; exact h
    · rcases Nat.le_total a.2 b.2 with h2 | h2
      · left; right; exact ⟨h, h2⟩
      · right; right; exact ⟨h.symm, h2⟩
    · left; left; exact h

instance : IsTrans (ℚ × ℕ) rankLe where
  trans := by
    intro a b c hab hbc
    unfold rankLe at *
    rcases hab with h1 | ⟨h1, h1i⟩ <;> rcases hbc with h2 | ⟨h2, h2i⟩
    · left; exact lt_trans h2 h1
    · left; rw [← h2]; exact h1
    · left; rw [h1]; exact h2
    · right; exact ⟨h1.trans h2, le_trans h1i h2i⟩

/-- Modelled from the spec: the neighbors of point `i`, every other index
paired with its distance `|x_j - x_i|`, sorted by distance then index. -/
def sortedNeighbors (xs : List ℚ) (i : ℕ) : List (ℚ × ℕ) :=
  (((List.range xs.length).filter (fun j => j ≠ i)).map
    (fun j => (|xs.getD j 0 - xs.getD i 0|, j))).insertionSort distIdxLe

/-- Modelled from the spec: the `k` nearest neighbors of point `i`. -/
def kNearest (xs : List ℚ) (k i : ℕ) : List (ℚ × ℕ) :=
  (sortedNeighbors xs i).take k

/-- Modelled from the spec: the `k`-distance of point `i` (distance to its
`k`-th nearest neighbor). -/
def kDistance (xs : List ℚ) (k i : ℕ) : ℚ :=
  ((sortedNeighbors xs i).getD (k - 1) (0, 0)).1

/-- Modelled from the spec: reachability distance
`max(kDistance(j), d(i, j))`. -/
def reachDist (xs : List ℚ) (k i j : ℕ) : ℚ :=
  max (kDistance xs k j) |xs.getD i 0 - xs.getD j 0|

/-- Modelled from the spec: local reachability density of point `i`, the
inverse of the average reachability distance to its `k` nearest neighbors. -/
def lrd (xs : List ℚ) (k i : ℕ) : ℚ :=
  (k : ℚ) / (((kNearest xs k i).map (fun p => reachDist xs k i p.2)).sum)

/-- Modelled from the spec: the LOF score of point `i`, the average local
reachability density of its neighbors divided by its own. -/
def lofScore (xs : List ℚ) (k i : ℕ) : ℚ :=
  (((kNearest xs k i).map (fun p => lrd xs k p.2)).sum) / ((k : ℚ) * lrd xs k i)

/-- Round half up: the flagged-point count `round(c · N)`. -/
def roundNat (q : ℚ) : ℕ := Nat.floor (q + 1 / 2)

/-- Modelled from the spec: all (score, index) pairs ranked by descending
score, ties by original index ascending. -/
def rankedPairs (xs : List ℚ) (k : ℕ) : List (ℚ × ℕ) :=
  ((List.range xs.length).map (fun i => (lofScore xs k i, i))).insertionSort rankLe

/-- Modelled from the spec: the detector marks exactly the configured
contamination fraction of points with the highest scores as anomalous. -/
def flaggedIndices (xs : List ℚ) (k : ℕ) (c : ℚ) : List ℕ :=
  ((rankedPairs xs k).take (roundNat (c * xs.length))).map (fun p => p.2)

/-- Modelled from the spec: the anomaly flag sequence, aligned 1:1 with the
input samples. -/
def lofFlags (xs : List ℚ) (k : ℕ) (c : ℚ) : List Bool :=
  (List.range xs.length).map (fun i => decide (i ∈ flaggedIndices xs k c))

/-- `nn = min(max(5, int(n_neighbors)), max(5, len(z) - 1))` (line 93): the
effective neighbor count. -/
def effNeighbors (N k : ℕ) : ℕ :=
  min (max 5 k) (max 5 (N - 1))

/-- The LOF detection entry point.  The neighbor clamp is repository code
(line 93); the failure on fewer than 6 distinct samples and the scoring are
modelled from the spec: `Fails with InvalidParameterError if k cannot be
satisfied (fewer than 6 distinct samples)`. -/
def lofDetect (xs : List ℚ) (k : ℕ) (c : ℚ) : Except AnalysisError (List Bool) :=
  if xs.dedup.length < 6 then .error .invalidParameterError
  else .ok (lofFlags xs (effNeighbors xs.length k) c)

/-! ## Claim C5: neighbor-count clamp and failure mode -/

/-- C5: the effective neighbor count is clamped into `[5, N-1]` (minimum 5),
and the detector fails with `InvalidParameterError` when there are fewer than
6 distinct samples. -/
theorem lof_neighbor_clamp (xs : List ℚ) (k : ℕ) (c : ℚ) :
    (xs.dedup.length < 6 → lofDetect xs k c = .error .invalidParameterError) ∧
    (6 ≤ xs.dedup.length →
      5 ≤ effNeighbors xs.length k ∧ effNeighbors xs.length k ≤ xs.length - 1) := by
  constructor
  · intro h
    unfold lofDetect
    rw [if_pos h]
  · intro h6
    have hlen : 6 ≤ xs.length :=
      le_trans h6 (List.Sublist.length_le (List.dedup_sublist xs))
    unfold effNeighbors
    omega

/-- Concrete instantiation of `lof_neighbor_clamp` at a series of 7 distinct
samples with requested `k = 35`. -/
theorem lof_neighbor_clamp_witness :
    6 ≤ ([0, 1, 2, 3, 4, 5, 6] : List ℚ).dedup.length ∧
    (5 ≤ effNeighbors ([0, 1, 2, 3, 4, 5, 6] : List ℚ).length 35 ∧
     effNeighbors ([0, 1, 2, 3, 4, 5, 6] : List ℚ).length 35 ≤
       ([0, 1, 2, 3, 4, 5, 6] : List ℚ).length - 1) :=
  ⟨by decide, (lof_neighbor_clamp [0, 1, 2, 3, 4, 5, 6] 35 1).2 (by decide)⟩

/-! ## Claim C10: missing values are filled with 0.0, alignment preserved -/

/-- `.fillna(0.0)` (line 92): missing values (modelled as `none`) are replaced
by `0.0`; present values are kept. -/
def fillna (raw : List (Option ℚ)) : List ℚ :=
  raw.map (fun o => o.getD 0)

/-- The LOF tab pipeline on the raw precipitation column: fill missing values
with `0.0`, then run the LOF detector. -/
def lofPipeline (raw : List (Option ℚ)) (k : ℕ) (c : ℚ) :
    Except AnalysisError (List Bool) :=
  lofDetect (fillna raw) k c

/-- C10: missing (NaN) values are replaced by `0.0` before LOF (the series is
neither rejected nor shortened), present values are unchanged, and on success
the flag sequence stays aligned 1:1 with the full input. -/
theorem lof_fillna_alignment (raw : List (Option ℚ)) (k : ℕ) (c : ℚ) :
    (fillna raw).length = raw.length ∧
    (∀ i : ℕ, raw[i]? = some none → (fillna raw)[i]? = some 0) ∧
    (∀ (i : ℕ) (v : ℚ), raw[i]? = some (some v) → (fillna raw)[i]? = some v) ∧
    (∀ flags, lofPipeline raw k c = .ok flags → flags.length = raw.length) := by
  refine ⟨List.length_map _ _, ?_, ?_, ?_⟩
  · intro i hi
    unfold fillna
    rw [List.getElem?_map, hi]
    rfl
  · intro i v hi
    unfold fillna
    rw [List.getElem?_map, hi]
    rfl
  · intro flags hok
    unfold lofPipeline lofDetect at hok
    split at hok
    · exact absurd hok (by simp)
    · have hflags : flags = lofFlags (fillna raw)
          (effNeighbors (fillna raw).length k) c := by
        injection hok with h
        exact h.symm
      rw [hflags]
      unfold lofFlags
      rw [List.length_map, List.length_range, fillna, List.length_map]

/-! ## Claim C4: LOF contamination contract -/

theorem rankedPairs_length (xs : List ℚ) (k : ℕ) :
    (rankedPairs xs k).length = xs.length := by
  unfold rankedPairs
  rw [List.length_insertionSort, List.length_map, List.length_range]

theorem rankedPairs_sorted (xs : List ℚ) (k : ℕ) :
    List.Pairwise rankLe (rankedPairs xs k) :=
  List.sorted_insertionSort rankLe _

theorem mem_rankedPairs (xs : List ℚ) (k : ℕ) {p : ℚ × ℕ}
    (hp : p ∈ rankedPairs xs k) :
    p = (lofScore xs k p.2, p.2) ∧ p.2 < xs.length := by
  have hperm := List.perm_insertionSort rankLe
    ((List.range xs.length).map (fun i => (lofScore xs k i, i)))
  have hmem : p ∈ (List.range xs.length).map (fun i => (lofScore xs k i, i)) :=
    hperm.mem_iff.mp hp
  rcases List.mem_map.mp hmem with ⟨i, hi, rfl⟩
  exact ⟨rfl, List.mem_range.mp hi⟩

theorem rankedPairs_map_snd_perm (xs : List ℚ) (k : ℕ) :
    ((rankedPairs xs k).map (fun p => p.2)).Perm (List.range xs.length) := by
  have hperm := List.perm_insertionSort rankLe
    ((List.range xs.length).map (fun i => (lofScore xs k i, i)))
  have h1 := hperm.map (fun p : ℚ × ℕ => p.2)
  have h2 : ((List.range xs.length).map (fun i => (lofScore xs k i, i))).map
      (fun p : ℚ × ℕ => p.2) = List.range xs.length := by
    rw [List.map_map]
    have hco : ((fun p : ℚ × ℕ => p.2) ∘ fun i => (lofScore xs k i, i)) =
        fun i => i := by
      funext i
      rfl
    rw [hco]
    exact List.map_id' _
  rw [h2] at h1
  exact h1

theorem rankedPairs_map_snd_nodup (xs : List ℚ) (k : ℕ) :
    ((rankedPairs xs k).map (fun p => p.2)).Nodup :=
  (rankedPairs_map_snd_perm xs k).symm.nodup (List.nodup_range _)

theorem flaggedIndices_sublist (xs : List ℚ) (k : ℕ) (c : ℚ) :
    (flaggedIndices xs k c).Sublist ((rankedPairs xs k).map (fun p => p.2)) := by
  unfold flaggedIndices
  rw [List.map_take]
  exact List.take_sublist _ _

theorem flaggedIndices_nodup (xs : List ℚ) (k : ℕ) (c : ℚ) :
    (flaggedIndices xs k c).Nodup :=
  (flaggedIndices_sublist xs k c).nodup (rankedPairs_map_snd_nodup xs k)

theorem flaggedIndices_lt (xs : List ℚ) (k : ℕ) (c : ℚ) :
    ∀ x ∈ flaggedIndices xs k c, x < xs.length := by
  intro x hx
  have h1 : x ∈ (rankedPairs xs k).map (fun p => p.2) :=
    (flaggedIndices_sublist xs k c).subset hx
  exact List.mem_range.mp ((rankedPairs_map_snd_perm xs k).mem_iff.mp h1)

theorem flaggedIndices_length (xs : List ℚ) (k : ℕ) (c : ℚ)
    (hm : roundNat (c * xs.length) ≤ xs.length) :
    (flaggedIndices xs k c).length = roundNat (c * xs.length) := by
  unfold flaggedIndices
  rw [List.length_map, List.length_take, rankedPairs_length]
  exact min_eq_left hm

theorem countP_mem_nodup_eq_length (F : List ℕ) (N : ℕ)
    (hnd : F.Nodup) (hsub : ∀ x ∈ F, x < N) :
    (List.range N).countP (fun i => decide (i ∈ F)) = F.length := by
  rw [List.countP_eq_length_filter]
  have hfn : ((List.range N).filter (fun i => decide (i ∈ F))).Nodup :=
    (List.nodup_range N).filter _
  have hperm : ((List.range N).filter (fun i => decide (i ∈ F))).Perm F := by
    rw [List.perm_ext_iff_of_nodup hfn hnd]
    intro a
    constructor
    · intro ha
      exact of_decide_eq_true (List.mem_filter.mp ha).2
    · intro ha
      exact List.mem_filter.mpr ⟨List.mem_range.mpr (hsub a ha), decide_eq_true ha⟩
  exact hperm.length_eq

theorem lofFlags_count (xs : List ℚ) (k : ℕ) (c : ℚ)
    (hm : roundNat (c * xs.length) ≤ xs.length) :
    (lofFlags xs k c).count true = roundNat (c * xs.length) := by
  unfold lofFlags
  rw [List.count_eq_countP, List.countP_map]
  have step1 : List.countP
      ((fun b => b == true) ∘ fun i => decide (i ∈ flaggedIndices xs k c))
      (List.range xs.length) =
      List.countP (fun i => decide (i ∈ flaggedIndices xs k c))
        (List.range xs.length) := by
    apply List.countP_congr
    intro a _
    simp [Function.comp]
  rw [step1,
    countP_mem_nodup_eq_length _ _ (flaggedIndices_nodup xs k c) (flaggedIndices_lt xs k c),
    flaggedIndices_length xs k c hm]

theorem lofFlags_getD (xs : List ℚ) (k : ℕ) (c : ℚ) (i : ℕ) (hi : i < xs.length) :
    (lofFlags xs k c).getD i false = decide (i ∈ flaggedIndices xs k c) := by
  unfold lofFlags
  rw [List.getD_eq_getElem?_getD,
    List.getElem?_eq_getElem (by simpa using hi), List.getElem_map, List.getElem_range]
  rfl

theorem flagged_rank_precedes (xs : List ℚ) (k : ℕ) (c : ℚ)
    (i j : ℕ) (hj : j < xs.length)
    (hfi : i ∈ flaggedIndices xs k c) (hfj : j ∉ flaggedIndices xs k c) :
    rankLe (lofScore xs k i, i) (lofScore xs k j, j) := by
  obtain ⟨p, hpmem, hp2⟩ := List.mem_map.mp hfi
  obtain ⟨ia, hiaLen, hiaEq⟩ := List.mem_iff_getElem.mp hpmem
  have hiam : ia < roundNat (c * xs.length) :=
    lt_of_lt_of_le hiaLen (by rw [List.length_take]; exact min_le_left _ _)
  have hiaL : ia < (rankedPairs xs k).length :=
    lt_of_lt_of_le hiaLen (by rw [List.length_take]; exact min_le_right _ _)
  rw [List.getElem_take] at hiaEq
  have hpL : p ∈ rankedPairs xs k := by
    rw [← hiaEq]
    exact List.getElem_mem hiaL
  have hpid := (mem_rankedPairs xs k hpL).1
  have hpi : p = (lofScore xs k i, i) := by
    rw [hpid, hp2]
  have hjmem : (lofScore xs k j, j) ∈ rankedPairs xs k := by
    have hperm := List.perm_insertionSort rankLe
      ((List.range xs.length).map (fun i => (lofScore xs k i, i)))
    exact hperm.mem_iff.mpr
      (List.mem_map.mpr ⟨j, List.mem_range.mpr hj, rfl⟩)
  obtain ⟨ib, hibL, hibEq⟩ := List.mem_iff_getElem.mp hjmem
  have hibm : roundNat (c * xs.length) ≤ ib := by
    by_contra hlt
    push_neg at hlt
    apply hfj
    refine List.mem_map.mpr ⟨(lofScore xs k j, j), ?_, rfl⟩
    refine List.mem_iff_getElem.mpr ⟨ib, ?_, ?_⟩
    · rw [List.length_take]
      exact lt_min hlt hibL
    · rw [List.getElem_take]
      exact hibEq
  have hrel := List.pairwise_iff_getElem.mp (rankedPairs_sorted xs k)
    ia ib hiaL hibL (lt_of_lt_of_le hiam hibm)
  rw [hiaEq, hibEq, hpi] at hrel
  exact hrel

/-- C4: for every feature series with at least 6 distinct samples, `N ≥ 20`
samples and contamination `c ∈ (0, 1/2]`, the LOF detector flags exactly
`round(c·N)` points — the points with the highest LOF scores, ties broken by
score then by original index, ascending. -/
theorem lof_contamination_contract (xs : List ℚ) (kReq : ℕ) (c : ℚ)
    (h6 : 6 ≤ xs.dedup.length) (hc0 : 0 < c) (hc : c ≤ 1 / 2)
    (hN : 20 ≤ xs.length) :
    ∃ flags, lofDetect xs kReq c = .ok flags ∧
      flags.length = xs.length ∧
      flags.count true = roundNat (c * xs.length) ∧
      (∀ i j : ℕ, i < xs.length → j < xs.length →
        flags.getD i false = true → flags.getD j false = false →
        rankLe (lofScore xs (effNeighbors xs.length kReq) i, i)
               (lofScore xs (effNeighbors xs.length kReq) j, j)) := by
  have hm : roundNat (c * xs.length) ≤ xs.length := by
    unfold roundNat
    have hN20 : (20 : ℚ) ≤ (xs.length : ℚ) := by exact_mod_cast hN
    have hcN : c * xs.length ≤ 1 / 2 * xs.length :=
      mul_le_mul_of_nonneg_right hc (by positivity)
    have h1 : c * xs.length + 1 / 2 ≤ (xs.length : ℚ) := by linarith
    calc Nat.floor (c * (xs.length : ℚ) + 1 / 2) ≤ Nat.floor ((xs.length : ℚ)) :=
          Nat.floor_mono h1
      _ = xs.length := Nat.floor_natCast _
  refine ⟨lofFlags xs (effNeighbors xs.length kReq) c, ?_, ?_, ?_, ?_⟩
  · unfold lofDetect
    rw [if_neg (Nat.not_lt.mpr h6)]
  · unfold lofFlags
    rw [List.length_map, List.length_range]
  · exact lofFlags_count xs _ c hm
  · intro i j hi hj hfi hfj
    rw [lofFlags_getD xs _ c i hi] at hfi
    rw [lofFlags_getD xs _ c j hj] at hfj
    exact flagged_rank_precedes xs _ c i j hj
      (of_decide_eq_true hfi) (fun hmem => by simp [hmem] at hfj)

/-- Concrete instantiation of `lof_contamination_contract` at 20 distinct
samples, `k = 35`, `c = 1/2`. -/
theorem lof_contamination_contract_witness :
    ∃ flags, lofDetect
        [0, 1, 2, 3, 4, 5, 6, 7, 8, 9, 10, 11, 12, 13, 14, 15, 16, 17, 18, 19]
        35 (1 / 2 : ℚ) = .ok flags ∧
      flags.length =
        ([0, 1, 2, 3, 4, 5, 6, 7, 8, 9, 10, 11, 12, 13, 14, 15, 16, 17, 18, 19] :
          List ℚ).length ∧
      flags.count true = roundNat ((1 / 2 : ℚ) *
        ([0, 1, 2, 3, 4, 5, 6, 7, 8, 9, 10, 11, 12, 13, 14, 15, 16, 17, 18, 19] :
          List ℚ).length) ∧
      (∀ i j : ℕ,
        i < ([0, 1, 2, 3, 4, 5, 6, 7, 8, 9, 10, 11, 12, 13, 14, 15, 16, 17, 18, 19] :
          List ℚ).length →
        j < ([0, 1, 2, 3, 4, 5, 6, 7, 8, 9, 10, 11, 12, 13, 14, 15, 16, 17, 18, 19] :
          List ℚ).length →
        flags.getD i false = true → flags.getD j false = false →
        rankLe
          (lofScore
            [0, 1, 2, 3, 4, 5, 6, 7, 8, 9, 10, 11, 12, 13, 14, 15, 16, 17, 18, 19]
            (effNeighbors
              ([0, 1, 2, 3, 4, 5, 6, 7, 8, 9, 10, 11, 12, 13, 14, 15, 16, 17, 18, 19] :
                List ℚ).length 35) i, i)
          (lofScore
            [0, 1, 2, 3, 4, 5, 6, 7, 8, 9, 10, 11, 12, 13, 14, 15, 16, 17, 18, 19]
            (effNeighbors
              ([0, 1, 2, 3, 4, 5, 6, 7, 8, 9, 10, 11, 12, 13, 14, 15, 16, 17, 18, 19] :
                List ℚ).length 35) j, j)) :=
  lof_contamination_contract
    [0, 1, 2, 3, 4, 5, 6, 7, 8, 9, 10, 11, 12, 13, 14, 15, 16, 17, 18, 19]
    35 (1 / 2 : ℚ) (by decide) one_half_pos (le_refl _) (by decide)

/-- Concrete instantiation of `lof_fillna_alignment` on a raw series with a
missing value at index 1 and six distinct present values. -/
theorem lof_fillna_alignment_witness :
    (fillna [some 0, none, some 1, some 2, some 3, some 4, some 5]).length =
      ([some 0, none, some 1, some 2, some 3, some 4, some 5] :
        List (Option ℚ)).length ∧
    (fillna [some 0, none, some 1, some 2, some 3, some 4, some 5])[1]? =
      some 0 ∧
    (lofFlags (fillna [some 0, none, some 1, some 2, some 3, some 4, some 5])
        (effNeighbors
          (fillna [some 0, none, some 1, some 2, some 3, some 4, some 5]).length 35)
        (mkRat 1 10)).length =
      ([some 0, none, some 1, some 2, some 3, some 4, some 5] :
        List (Option ℚ)).length :=
  ⟨(lof_fillna_alignment [some 0, none, some 1, some 2, some 3, some 4, some 5]
      35 (mkRat 1 10)).1,
   (lof_fillna_alignment [some 0, none, some 1, some 2, some 3, some 4, some 5]
      35 (mkRat 1 10)).2.1 1 (by decide),
   (lof_fillna_alignment [some 0, none, some 1, some 2, some 3, some 4, some 5]
      35 (mkRat 1 10)).2.2.2 _ rfl⟩

/-! ## Spectrogram computer

From `3_STL_and_Spectrogram.py` lines 112–114:
```
nperseg = int(window_len)
noverlap = int(nperseg * float(overlap))
f, tt, Sxx = spectrogram(s2.values, fs=1.0, nperseg=nperseg, noverlap=noverlap, scaling="density")
```
The overlap count `noverlap = int(nperseg * overlap)` is repository code; the
segmentation and the failure mode are internals of `scipy.signal.spectrogram`
and are modelled from the spec (§4.6): segments of length `nperseg`, hop
`nperseg - noverlap`, and `InvalidParameterError` if `nperseg` exceeds the
series length. -/

/-- `noverlap = int(nperseg * overlap)` (line 113): the number of samples
shared between consecutive segments (`overlap ≥ 0`, so `int` is the floor). -/
def noverlapOf (nperseg : ℕ) (overlap : ℚ) : ℕ :=
  Nat.floor ((nperseg : ℚ) * overlap)

/-- The hop between consecutive segment start positions. -/
def stepOf (nperseg : ℕ) (overlap : ℚ) : ℕ :=
  nperseg - noverlapOf nperseg overlap

/-- Modelled from the spec: the number of overlapping windowed segments. -/
def numSegments (N nperseg : ℕ) (overlap : ℚ) : ℕ :=
  (N - noverlapOf nperseg overlap) / stepOf nperseg overlap

/-- Modelled from the spec: the `i`-th windowed segment of length `nperseg`,
starting at `i * (nperseg - noverlap)`. -/
def specSegment (xs : List ℚ) (nperseg : ℕ) (overlap : ℚ) (i : ℕ) : List ℚ :=
  (List.range nperseg).map (fun t => xs.getD (i * stepOf nperseg overlap + t) 0)

/-- Modelled from the spec: the segmentation step of the Spectrogram
Computer.  Fails with `InvalidParameterError` when `nperseg` exceeds the
series length; otherwise splits the series into overlapping segments.  (The
per-segment windowed PSD is applied to each segment downstream and does not
affect the segmentation claims.) -/
def spectrogramSegments (xs : List ℚ) (nperseg : ℕ) (overlap : ℚ) :
    Except AnalysisError (List (List ℚ)) :=
  if xs.length < nperseg then .error .invalidParameterError
  else .ok ((List.range (numSegments xs.length nperseg overlap)).map
    (specSegment xs nperseg overlap))

theorem noverlapOf_lt (nperseg : ℕ) (overlap : ℚ) (hnp : 0 < nperseg)
    (h0 : 0 ≤ overlap) (h1 : overlap < 1) :
    noverlapOf nperseg overlap < nperseg := by
  unfold noverlapOf
  rw [Nat.floor_lt (by positivity)]
  calc (nperseg : ℚ) * overlap < (nperseg : ℚ) * 1 :=
        mul_lt_mul_of_pos_left h1 (by exact_mod_cast hnp)
    _ = nperseg := mul_one _

/-! ## Claim C7: spectrogram parameter failure and segment overlap -/

/-- C7: for every series and overlap fraction in `[0, 1)`, the spectrogram
computation fails with `InvalidParameterError` when `nperseg` exceeds the
series length, and otherwise consecutive segments share exactly
`⌊nperseg · overlap⌋` samples: the last `noverlap` entries of segment `i`
equal the first `noverlap` entries of segment `i+1`, and every segment has
length `nperseg`. -/
theorem spectrogram_contract (xs : List ℚ) (nperseg : ℕ) (overlap : ℚ)
    (h0 : 0 ≤ overlap) (h1 : overlap < 1) :
    (xs.length < nperseg →
      spectrogramSegments xs nperseg overlap = .error .invalidParameterError) ∧
    (nperseg ≤ xs.length →
      spectrogramSegments xs nperseg overlap =
        .ok ((List.range (numSegments xs.length nperseg overlap)).map
          (specSegment xs nperseg overlap)) ∧
      noverlapOf nperseg overlap = Nat.floor ((nperseg : ℚ) * overlap) ∧
      (∀ i, (specSegment xs nperseg overlap i).length = nperseg) ∧
      (∀ i,
        (specSegment xs nperseg overlap i).drop (stepOf nperseg overlap) =
          (specSegment xs nperseg overlap (i + 1)).take (noverlapOf nperseg overlap))) := by
  constructor
  · intro h
    unfold spectrogramSegments
    rw [if_pos h]
  · intro hle
    refine ⟨?_, rfl, ?_, ?_⟩
    · unfold spectrogramSegments
      rw [if_neg (Nat.not_lt.mpr hle)]
    · intro i
      unfold specSegment
      rw [List.length_map, List.length_range]
    · intro i
      rcases Nat.eq_zero_or_pos nperseg with hz | hnp
    
      · subst hz
        simp [specSegment, stepOf, noverlapOf]
      · have hno := noverlapOf_lt nperseg overlap hnp h0 h1
        have hstep : stepOf nperseg overlap + noverlapOf nperseg overlap = nperseg := by
          unfold stepOf
          omega
        apply List.ext_getElem
        · rw [List.length_drop, List.length_take]
          unfold specSegment
          rw [List.length_map, List.length_range, List.length_map, List.length_range]
          omega
        · intro t ht1 ht2
          rw [List.getElem_drop, List.getElem_take]
          unfold specSegment
          have htlen : stepOf nperseg overlap + t < nperseg := by
            rw [List.length_drop] at ht1
            unfold specSegment at ht1
            rw [List.length_map, List.length_range] at ht1
            omega
          have htlen2 : t < nperseg := by omega
          rw [List.getElem_map, List.getElem_range, List.getElem_map, List.getElem_range]
          congr 1
          ring
  
/-- Concrete instantiation of `spectrogram_contract` at a series of length 6,
`nperseg = 4`, `overlap = 1/2`. -/
theorem spectrogram_contract_witness :
    0 ≤ mkRat 1 2 ∧ mkRat 1 2 < 1 ∧
    (4 ≤ ([0, 1, 2, 3, 4, 5] : List ℚ).length →
      spectrogramSegments [0, 1, 2, 3, 4, 5] 4 (mkRat 1 2) =
        .ok ((List.range (numSegments ([0, 1, 2, 3, 4, 5] : List ℚ).length 4 (mkRat 1 2))).map
          (specSegment [0, 1, 2, 3, 4, 5] 4 (mkRat 1 2))) ∧
      noverlapOf 4 (mkRat 1 2) = Nat.floor ((4 : ℚ) * mkRat 1 2) ∧
      (∀ i, (specSegment [0, 1, 2, 3, 4, 5] 4 (mkRat 1 2) i).length = 4) ∧
      (∀ i,
        (specSegment [0, 1, 2, 3, 4, 5] 4 (mkRat 1 2) i).drop (stepOf 4 (mkRat 1 2)) =
          (specSegment [0, 1, 2, 3, 4, 5] 4 (mkRat 1 2) (i + 1)).take
            (noverlapOf 4 (mkRat 1 2)))) :=
  ⟨by decide, by decide,
    (spectrogram_contract [0, 1, 2, 3, 4, 5] 4 (mkRat 1 2) (by decide) (by decide)).2⟩

/-! ## STL decomposer

`3_STL_and_Spectrogram.py` line 59 calls
`STL(s, period, seasonal, trend, robust).fit()` from statsmodels.  The
iterative decomposition itself is library code, not repository code, and is
modelled from the spec (§4.5): detrend, per-phase cycle-subseries smoothing,
low-pass removal of residual trend leakage, trend re-estimation, iterated a
fixed number of times, with optional bisquare robustness weights; the residual
is what remains of the observation after removing trend and seasonal. -/

/-- The STL output: trend, seasonal and residual components. -/
structure StlResult : Type where
  trend : List ℚ
  seasonal : List ℚ
  resid : List ℚ
deriving Repr, DecidableEq

/-- Modelled from the spec: degree-0 local-regression (moving-average)
smoothing with window `w`, weighted by `wts` (weight `1` where `wts` has no
entry, so `[]` means unweighted). -/
def localSmoothW (w : ℕ) (wts xs : List ℚ) : List ℚ :=
  (List.range xs.length).map (fun i =>
    let lo := i - w / 2
    let hi := min (xs.length - 1) (i + w / 2)
    (∑ j ∈ Finset.Icc lo hi, wts.getD j 1 * xs.getD j 0) /
      (∑ j ∈ Finset.Icc lo hi, wts.getD j 1))

/-- Modelled from the spec: cycle-subseries smoothing — each position is
replaced by the (weighted) mean of the samples in the same phase position
modulo `p`, within `w` cycles. -/
def cycleSmoothW (p w : ℕ) (wts xs : List ℚ) : List ℚ :=
  (List.range xs.length).map (fun i =>
    let idxs := (Finset.range xs.length).filter
      (fun j => j % p = i % p ∧ i / p - w / 2 ≤ j / p ∧ j / p ≤ i / p + w / 2)
    (∑ j ∈ idxs, wts.getD j 1 * xs.getD j 0) / (∑ j ∈ idxs, wts.getD j 1))

/-- The bisquare weight function used by robust STL. -/
def bisquare (u : ℚ) : ℚ :=
  if |u| < 1 then (1 - u ^ 2) ^ 2 else 0

/-- The residual left after removing trend and seasonal from the
observations. -/
def residOf (obs trend seasonal : List ℚ) : List ℚ :=
  List.zipWith (fun a b => a - b) (List.zipWith (fun a b => a - b) obs trend) seasonal

/-- Modelled from the spec: robustness weights — bisquare of the residual
scaled by six times its median absolute value. -/
def robustWeights (resid : List ℚ) : List ℚ :=
  resid.map (fun r => bisquare (r / (6 * median (resid.map (fun x => |x|)))))

/-- Modelled from the spec: one STL inner iteration on the pair
(seasonal, trend): (1) detrend, (2) cycle-subseries smoothing, (3) low-pass
the extracted seasonal and remove the leakage, (4) re-estimate the trend from
the seasonally adjusted series. -/
def stlInner (obs : List ℚ) (p sw tw : ℕ) (wts trend : List ℚ) :
    List ℚ × List ℚ :=
  let detrended := List.zipWith (fun a b => a - b) obs trend
  let seasonalRaw := cycleSmoothW p sw wts detrended
  let leak := localSmoothW p wts seasonalRaw
  let seasonal := List.zipWith (fun a b => a - b) seasonalRaw leak
  let deseason := List.zipWith (fun a b => a - b) obs seasonal
  let trendNew := localSmoothW tw wts deseason
  (seasonal, trendNew)

/-- Modelled from the spec: the iteration loop (fixed iteration cap); when
`robust` is set, each round recomputes bisquare weights from the current
residual before re-smoothing. -/
def stlLoop (obs : List ℚ) (p sw tw : ℕ) (robust : Bool) :
    ℕ → List ℚ × List ℚ → List ℚ × List ℚ
  | 0, st => st
  | n + 1, st =>
      stlLoop obs p sw tw robust n
        (stlInner obs p sw tw
          (if robust then robustWeights (residOf obs st.2 st.1) else []) st.2)

/-- Modelled from the spec: the STL decomposer — fails with
`InsufficientDataError` on fewer than two full periods, otherwise iterates the
inner loop and returns trend, seasonal and the residual
`observed - trend - seasonal`. -/
def stlDecompose (obs : List ℚ) (p sw tw : ℕ) (robust : Bool) :
    Except AnalysisError StlResult :=
  if obs.length < 2 * p then .error .insufficientDataError
  else
    let st := stlLoop obs p sw tw robust 2
      (List.replicate obs.length 0, List.replicate obs.length 0)
    .ok ⟨st.2, st.1, residOf obs st.2 st.1⟩

theorem localSmoothW_length (w : ℕ) (wts xs : List ℚ) :
    (localSmoothW w wts xs).length = xs.length := by
  simp [localSmoothW]

theorem cycleSmoothW_length (p w : ℕ) (wts xs : List ℚ) :
    (cycleSmoothW p w wts xs).length = xs.length := by
  simp [cycleSmoothW]

theorem stlInner_lengths (obs : List ℚ) (p sw tw : ℕ) (wts trend : List ℚ)
    (ht : trend.length = obs.length) :
    (stlInner obs p sw tw wts trend).1.length = obs.length ∧
    (stlInner obs p sw tw wts trend).2.length = obs.length := by
  unfold stlInner
  dsimp only
  constructor
  · rw [List.length_zipWith, cycleSmoothW_length, localSmoothW_length,
      cycleSmoothW_length, List.length_zipWith, ht]
    omega
  · rw [localSmoothW_length, List.length_zipWith, List.length_zipWith,
      cycleSmoothW_length, localSmoothW_length, cycleSmoothW_length,
      List.length_zipWith, ht]
    omega

theorem stlLoop_lengths (obs : List ℚ) (p sw tw : ℕ) (robust : Bool)
    (n : ℕ) (st : List ℚ × List ℚ)
    (h1 : st.1.length = obs.length) (h2 : st.2.length = obs.length) :
    (stlLoop obs p sw tw robust n st).1.length = obs.length ∧
    (stlLoop obs p sw tw robust n st).2.length = obs.length := by
  induction n generalizing st with
  | zero => exact ⟨h1, h2⟩
  | succ m ih =>
    unfold stlLoop
    have hin := stlInner_lengths obs p sw tw
      (if robust then robustWeights (residOf obs st.2 st.1) else []) st.2 h2
    exact ih _ hin.1 hin.2

theorem residOf_length (obs trend seasonal : List ℚ)
    (ht : trend.length = obs.length) (hs : seasonal.length = obs.length) :
    (residOf obs trend seasonal).length = obs.length := by
  unfold residOf
  rw [List.length_zipWith, List.length_zipWith, ht, hs]
  omega

theorem residOf_getD (obs trend seasonal : List ℚ) (i : ℕ)
    (ht : trend.length = obs.length) (hs : seasonal.length = obs.length)
    (hi : i < obs.length) :
    (residOf obs trend seasonal).getD i 0 =
      obs.getD i 0 - trend.getD i 0 - seasonal.getD i 0 := by
  have hr : i < (residOf obs trend seasonal).length := by
    rw [residOf_length obs trend seasonal ht hs]
    exact hi
  have hz : i < (List.zipWith (fun a b => a - b) obs trend).length := by
    rw [List.length_zipWith, ht]
    omega
  unfold residOf
  rw [List.getD_eq_getElem?_getD, List.getElem?_eq_getElem (by
    rw [List.length_zipWith, List.length_zipWith, ht, hs]; omega)]
  rw [List.getElem_zipWith, List.getElem_zipWith]
  rw [List.getD_eq_getElem?_getD, List.getElem?_eq_getElem hi,
    List.getD_eq_getElem?_getD, List.getElem?_eq_getElem (by rw [ht]; exact hi),
    List.getD_eq_getElem?_getD, List.getElem?_eq_getElem (by rw [hs]; exact hi)]
  rfl

/-! ## Claim C1: STL reconstruction invariant -/

/-- C1: for every valid uniformly sampled series, the three STL components
satisfy `observed = trend + seasonal + residual` at every timestamp: in exact
arithmetic the reconstruction error is `0`, so its elementwise absolute value
is below `1e-6` everywhere. -/
theorem stl_reconstruction (obs : List ℚ) (p sw tw : ℕ) (robust : Bool)
    (hp : 2 * p ≤ obs.length) :
    ∃ res : StlResult, stlDecompose obs p sw tw robust = .ok res ∧
      res.trend.length = obs.length ∧
      res.seasonal.length = obs.length ∧
      res.resid.length = obs.length ∧
      (∀ i, i < obs.length →
        obs.getD i 0 =
          res.trend.getD i 0 + res.seasonal.getD i 0 + res.resid.getD i 0) ∧
      (∀ i, i < obs.length →
        |obs.getD i 0 -
          (res.trend.getD i 0 + res.seasonal.getD i 0 + res.resid.getD i 0)| <
          1 / 1000000) := by
  have hloop := stlLoop_lengths obs p sw tw robust 2
    (List.replicate obs.length 0, List.replicate obs.length 0)
    (List.length_replicate _ _) (List.length_replicate _ _)
  refine ⟨⟨(stlLoop obs p sw tw robust 2
      (List.replicate obs.length 0, List.replicate obs.length 0)).2,
    (stlLoop obs p sw tw robust 2
      (List.replicate obs.length 0, List.replicate obs.length 0)).1,
    residOf obs
      (stlLoop obs p sw tw robust 2
        (List.replicate obs.length 0, List.replicate obs.length 0)).2
      (stlLoop obs p sw tw robust 2
        (List.replicate obs.length 0, List.replicate obs.length 0)).1⟩,
    ?_, hloop.2, hloop.1, residOf_length _ _ _ hloop.2 hloop.1, ?_, ?_⟩
  · unfold stlDecompose
    rw [if_neg (Nat.not_lt.mpr hp)]
  · intro i hi
    rw [residOf_getD _ _ _ i hloop.2 hloop.1 hi]
    ring
  · intro i hi
    rw [residOf_getD _ _ _ i hloop.2 hloop.1 hi]
    have : obs.getD i 0 -
        ((stlLoop obs p sw tw robust 2
            (List.replicate obs.length 0, List.replicate obs.length 0)).2.getD i 0 +
         (stlLoop obs p sw tw robust 2
            (List.replicate obs.length 0, List.replicate obs.length 0)).1.getD i 0 +
         (obs.getD i 0 -
          (stlLoop obs p sw tw robust 2
            (List.replicate obs.length 0, List.replicate obs.length 0)).2.getD i 0 -
          (stlLoop obs p sw tw robust 2
            (List.replicate obs.length 0, List.replicate obs.length 0)).1.getD i 0)) = 0 := by
      ring
    rw [this]
    norm_num

/-- Concrete instantiation of `stl_reconstruction` at a 4-sample series with
`period = 2`. -/
theorem stl_reconstruction_witness :
    2 * 2 ≤ ([0, 1, 0, 1] : List ℚ).length ∧
    (∃ res : StlResult, stlDecompose [0, 1, 0, 1] 2 7 5 false = .ok res ∧
      res.trend.length = ([0, 1, 0, 1] : List ℚ).length ∧
      res.seasonal.length = ([0, 1, 0, 1] : List ℚ).length ∧
      res.resid.length = ([0, 1, 0, 1] : List ℚ).length ∧
      (∀ i, i < ([0, 1, 0, 1] : List ℚ).length →
        ([0, 1, 0, 1] : List ℚ).getD i 0 =
          res.trend.getD i 0 + res.seasonal.getD i 0 + res.resid.getD i 0) ∧
      (∀ i, i < ([0, 1, 0, 1] : List ℚ).length →
        |([0, 1, 0, 1] : List ℚ).getD i 0 -
          (res.trend.getD i 0 + res.seasonal.getD i 0 + res.resid.getD i 0)| <
          1 / 1000000)) :=
  ⟨by decide, stl_reconstruction [0, 1, 0, 1] 2 7 5 false (by decide)⟩

/-! ## Claim C9: no core computation mutates its input

The two pipelines are embedded as explicit state passing over the page-local
variables.  The only in-place numpy mutation in the source,
`x[:max(1, cutoff)] = 0.0` (line 61), acts on `x`, the fresh array returned
by `dct` on line 59 — it is modelled as rebinding the `x` field; the input
series `s` (resp. the raw precipitation column) is never rebound or
modified. -/

/-- The local variables of the SPC tab (lines 58–67): input series `s`,
transform buffer `x`, residual `satv`, flags `out`. -/
structure SpcVars : Type where
  s : List ℝ
  x : List ℝ
  satv : List ℝ
  out : List Bool

/-- The SPC tab executed line by line as state updates: `s` is bound to the
input (line 58), `x := dct(s)` (line 59), the slice assignment
`x[:max(1,cutoff)] = 0` updates only `x` (lines 60–61), `satv := idct(x)`
(line 62), and `out` is the SPC flag vector (lines 63–67). -/
noncomputable def runSpcVars (temps : List ℝ) (frac : ℚ) (kSigma : ℝ) : SpcVars :=
  let st0 : SpcVars := ⟨temps, [], [], []⟩
  let st1 := { st0 with x := dct st0.s }
  let st2 := { st1 with x := zeroFirst (zeroedCount st1.x.length frac) st1.x }
  let st3 := { st2 with satv := idct st2.x }
  { st3 with out := (spcBounds st3.satv kSigma).flags }

/-- The local variables of the LOF tab (lines 92–96): raw precipitation
column `precip`, filled feature array `z`, flags `out2`. -/
structure LofVars : Type where
  precip : List (Option ℚ)
  z : List ℚ
  out2 : List Bool

/-- The LOF tab executed line by line as state updates: `z` is a fresh array
built by `fillna(0.0)` from the raw column (line 92), and `fit_predict` reads
`z` without modifying it (lines 93–96, per the spec's no-mutation
guarantee). -/
def runLofVars (precip : List (Option ℚ)) (k : ℕ) (c : ℚ) : LofVars :=
  let st0 : LofVars := ⟨precip, [], []⟩
  let st1 := { st0 with z := fillna st0.precip }
  { st1 with out2 := lofFlags st1.z (effNeighbors st1.z.length k) c }

/-- C9: neither the SATV/SPC pipeline nor the LOF pipeline mutates its input
value sequence: after running either computation, the input field of the
state is the unchanged input series (every update the source performs acts on
internally created arrays `x`, `satv`, `z`, `out`, `out2`). -/
theorem pipelines_preserve_input (temps : List ℝ) (frac : ℚ) (kSigma : ℝ)
    (precip : List (Option ℚ)) (k : ℕ) (c : ℚ) :
    (runSpcVars temps frac kSigma).s = temps ∧
    (runLofVars precip k c).precip = precip :=
  ⟨rfl, rfl⟩
